import Mathlib

/-!
Shallow embedding of the `rho` command-line front end: the argument
scanner / option resolver (`src/lib/options.js`), the JSON document loader
and deep merger (`src/lib/objects.js`), and the post-render output dispatch
(`src/lib/commands.js`), together with theorems settling the specification
claims about them.
-/

namespace Rho

/-! ## Option parsing (`src/lib/options.js`)

The argument vector is a list of strings (the program receives
`process.argv`).  Option spellings (`keys`) are a list of strings. -/

/-- `isOption keys args`: `R.pipe(R.intersection, R.isEmpty, R.not)` —
`true` iff the intersection of `keys` and `args` is non-empty, i.e. some
spelling occurs somewhere in the argument vector. -/
def isOption (keys args : List String) : Bool :=
  keys.any (fun k => args.contains k)

/-- `allIndicesOf key args`: every index `i` with `args[i] = key`, in
ascending order (the source computes this with
`R.pickBy(R.equals(key))` / `R.keys` / `R.map(Number)`, which yields the
integer-valued object keys in ascending order). -/
def allIndicesOf (key : String) (args : List String) : List Nat :=
  (List.range args.length).filter (fun i => args.get? i = some key)

/-- `R.lastIndexOf key args`: the greatest index holding `key`, or `-1`
when `key` does not occur. -/
def lastIndexOf (key : String) (args : List String) : Int :=
  match (allIndicesOf key args).max? with
  | some i => (i : Int)
  | none => -1

/-- `R.nth offset args`: Ramda's `nth`, which counts from the end of the
list for a negative offset and returns `undefined` out of range. -/
def nthR (offset : Int) (l : List String) : Option String :=
  let idx : Int := if offset < 0 then (l.length : Int) + offset else offset
  if idx < 0 then none else l.get? idx.toNat

/-- `parseOption keys args` (`src/lib/options.js`): when some spelling
occurs, map every spelling to `R.lastIndexOf(key, args) + 1`, take the
lodash `_.max` of those numbers (`undefined` on an empty list, modelled by
the `none` branch) and return `R.nth` of the argument vector at that
position; otherwise `undefined`. -/
def parseOption (keys args : List String) : Option String :=
  if isOption keys args then
    match (keys.map (fun k => lastIndexOf k args + 1)).max? with
    | some m => nthR m args
    | none => none
  else none

/-- lodash `_.compact`: removes falsey entries.  The entries here are
`undefined` (a missing follower, `none`) or strings, and the only falsey
string is the empty string. -/
def compact (l : List (Option String)) : List String :=
  l.filterMap (fun o =>
    match o with
    | none => none
    | some s => if s = "" then none else some s)

/-- `parseOptionsMultiple keys args` (`src/lib/options.js`): for each
spelling collect `allIndicesOf`, `R.flatten` the index lists, read the
token after each index with `R.nth(R.inc(idx))`, and `_.compact` the
result. -/
def parseOptionsMultiple (keys args : List String) : List String :=
  compact (((keys.map (fun k => allIndicesOf k args)).flatten).map
    (fun idx => args.get? (idx + 1)))

/-! ## Specification-side descriptions of the resolver -/

/-- Indices of all occurrences of any spelling of the option — the claim
side's notion of "occurrence". -/
def occurrenceIndices (keys args : List String) : List Nat :=
  (List.range args.length).filter
    (fun i => (args.get? i).any (fun a => keys.contains a))

/-- The claim side's "some occurrence of some spelling has a following
token". -/
def hasFollowedOccurrence (keys args : List String) : Bool :=
  (List.range args.length).any
    (fun i => decide (i + 1 < args.length) &&
      (args.get? i).any (fun a => keys.contains a))

/-- The spec's description of `resolveAll`: for each spelling in order, for
each of its occurrences left to right, the token at position + 1; an
occurrence with no following token is dropped. -/
def resolveAllSpec (keys args : List String) : List String :=
  ((keys.map (fun k => allIndicesOf k args)).flatten).filterMap
    (fun idx => args.get? (idx + 1))

/-! ## JSON documents and the deep merge (`src/lib/objects.js`)

A parsed JSON value is a tree of scalars, sequences and mappings.  A
top-level document, per the data model, is a mapping from string keys to
values (`Doc`).  Mappings are ordered lists of key/value pairs, mirroring
the insertion-ordered string keys of a JavaScript object (so each key
occurs at most once in any value produced by `JSON.parse`). -/

inductive Json where
  | str (s : String)
  | num (n : Int)
  | bool (b : Bool)
  | null
  | arr (elems : List Json)
  | obj (fields : List (String × Json))

/-- A top-level JSON document: a mapping of string keys to values. -/
abbrev Doc := List (String × Json)

/-- Key lookup in a mapping (`_has` / property access on a JavaScript
object): the value at the first field named `k`, if any. -/
def findField (k : String) (fields : List (String × Json)) : Option Json :=
  match fields.find? (fun p => p.1 = k) with
  | some p => some p.2
  | none => none

mutual

/-- `R.mergeDeepLeft` on values: when both sides are mappings the merge
recurses field-wise (`mergeOwn` handles the left side's own keys, the
appended filter keeps the right side's keys that the left lacks); in every
other case the left value is kept as-is (Ramda only recurses when both
values satisfy `_isObject`, which holds for plain objects and not for
arrays or scalars). -/
def mergeVal : Json → Json → Json
  | .obj lf, .obj rf =>
      .obj (mergeOwn lf rf ++ rf.filter (fun q => (findField q.1 lf).isNone))
  | v, _ => v

/-- The first loop of Ramda's `mergeWithKey`: each key of the left mapping,
in order, paired with the merge of its value against the right mapping's
value at that key when present. -/
def mergeOwn : List (String × Json) → List (String × Json) → List (String × Json)
  | [], _ => []
  | (k, v) :: tl, rf =>
      (k, match findField k rf with
          | some w => mergeVal v w
          | none => v) :: mergeOwn tl rf

end

/-- `R.mergeDeepLeft l r` on two top-level documents: the left document's
keys (merged against `r` where shared) followed by the right document's
keys that `l` lacks. -/
def mergeDeepLeft (l r : Doc) : Doc :=
  mergeOwn l r ++ r.filter (fun q => (findField q.1 l).isNone)

/-! ## The document loader (`src/lib/objects.js`)

`parseObject` runs `fs.readFileSync`, `JSON.minify` (comment stripping) and
`JSON.parse` inside `R.tryCatch`.  The file system is modelled as a map
from paths to one of three outcomes: the file is missing (`readFileSync`
throws), it exists but its text does not parse (`JSON.parse` throws), or
it parses to a document.  Each function returns its value together with
the list of `console.log` diagnostics it emits, in order. -/

inductive FileData where
  | missing
  | malformed
  | wellformed (d : Doc)

/-- A file system: what loading each path would yield. -/
abbrev FS := String → FileData

/-- `fs.existsSync`. -/
def existsSync (fs : FS) (p : String) : Bool :=
  match fs p with
  | .missing => false
  | _ => true

/-- Whether reading and parsing the path would succeed. -/
def isDoc (f : FileData) : Bool :=
  match f with
  | .wellformed _ => true
  | _ => false

/-- The `console.log` line printed by the `R.tryCatch` error handlers:
the caught error followed by the offending path. -/
def diagMsg (p : String) : String :=
  "Error: cannot load <File: " ++ p ++ ">"

/-- `parseObject objPath`: read, strip comments, parse.  Both a missing
file (`readFileSync` throws `ENOENT`) and malformed text (`JSON.parse`
throws) land in the same `R.tryCatch` handler, which logs the error and
yields `undefined`. -/
def parseObject (fs : FS) (objPath : String) : Option Doc × List String :=
  match fs objPath with
  | .wellformed d => (some d, [])
  | _ => (none, [diagMsg objPath])

/-- `getDefaultObject defaultValue`: `R.ifElse(fs.existsSync, parseObject,
R.always(undefined))`. -/
def getDefaultObject (fs : FS) (defaultValue : String) : Option Doc × List String :=
  if existsSync fs defaultValue then parseObject fs defaultValue
  else (none, [])

/-- `getObjectOverDefault defaultValue keys args`: resolve the option with
`parseOption`; when a path was given, `parseObject` it and, when that
yields `undefined`, fall back to `getDefaultObject`; when no path was
given, go straight to `getDefaultObject`. -/
def getObjectOverDefault (fs : FS) (defaultValue : String)
    (keys args : List String) : Option Doc × List String :=
  match parseOption keys args with
  | some p =>
      match parseObject fs p with
      | (some d, logs) => (some d, logs)
      | (none, logs) =>
          let r := getDefaultObject fs defaultValue
          (r.1, logs ++ r.2)
  | none => getDefaultObject fs defaultValue

/-- One step of the `R.reduce` inside `parseObjects`: read, strip and
parse the path and `R.mergeDeepLeft(obj)` the result onto the accumulator
(`R.mergeDeepLeft(undefined, d)` is a fresh copy of `d`); on any thrown
error the handler logs and returns the accumulator unchanged. -/
def parseObjectsStep (fs : FS) (acc : Option Doc × List String)
    (objPath : String) : Option Doc × List String :=
  match fs objPath with
  | .wellformed d =>
      (some (match acc.1 with
             | some a => mergeDeepLeft a d
             | none => d),
       acc.2)
  | _ => (acc.1, acc.2 ++ [diagMsg objPath])

/-- `parseObjects objPaths`: `undefined` for an empty path list, else the
left fold of `parseObjectsStep` starting from `undefined`. -/
def parseObjects (fs : FS) (objPaths : List String) : Option Doc × List String :=
  if objPaths.isEmpty then (none, [])
  else objPaths.foldl (parseObjectsStep fs) (none, [])

/-- `getDefaultObjects defaultValues`: `R.filter(fs.existsSync)` then
`parseObjects`. -/
def getDefaultObjects (fs : FS) (defaultValues : List String) :
    Option Doc × List String :=
  parseObjects fs (defaultValues.filter (existsSync fs))

/-- `getObjects defaultValues keys args`: merge the explicitly listed
style files into `A`; when `A` is defined, merge the default files into
`B` and yield `R.mergeDeepLeft A B` when `B` is defined (else `A`); when
`A` is `undefined`, yield the default files' merge. -/
def getObjects (fs : FS) (defaultValues : List String)
    (keys args : List String) : Option Doc × List String :=
  match parseObjects fs (parseOptionsMultiple keys args) with
  | (some pa, logs1) =>
      match getDefaultObjects fs defaultValues with
      | (some pb, logs2) => (some (mergeDeepLeft pa pb), logs1 ++ logs2)
      | (none, logs2) => (some pa, logs1 ++ logs2)
  | (none, logs1) =>
      let r := getDefaultObjects fs defaultValues
      (r.1, logs1 ++ r.2)

/-! ## Post-render dispatch (`src/lib/commands.js`)

After `diagram.generate()` resolves, the `.then` callback runs
`R.cond([[isOption -o, output], [isOption -w, console.log]])`: `R.cond`
applies the transformer of the **first** predicate that holds and ignores
the rest.  `output` writes the rendered SVG inside `R.tryCatch`, logging
on a write failure.  `writeOk` says whether `fs.writeFileSync` would
succeed. -/

structure RenderOutcome where
  /-- The text written to the output file, when a write happened. -/
  written : Option String
  /-- The text `console.log`ged by the `-w` branch, when it ran. -/
  printed : Option String
  /-- Diagnostics logged, in order. -/
  diags : List String
deriving DecidableEq

/-- `output args diagram`: `fs.writeFileSync(parseOption(-o), svg)` inside
`R.tryCatch`; a throwing write is logged and yields `undefined`. -/
def outputCmd (args : List String) (svg : String) (writeOk : Bool) :
    RenderOutcome :=
  if writeOk then { written := some svg, printed := none, diags := [] }
  else { written := none, printed := none,
         diags := ["Error: write failed. Diagram was not generated."] }

/-- The `R.cond` dispatch in `diagram`s `.then` callback: when `-o` is
present run `output`; otherwise when `-w` is present print the SVG;
otherwise do nothing (`R.cond` without a matching clause). -/
def afterGenerate (args : List String) (svg : String) (writeOk : Bool) :
    RenderOutcome :=
  if isOption ["-o", "--output"] args then outputCmd args svg writeOk
  else if isOption ["-w", "--write"] args then
    { written := none, printed := some svg, diags := [] }
  else { written := none, printed := none, diags := [] }

/-! ## Helper lemmas about the option resolver -/

lemma mem_allIndicesOf {key : String} {args : List String} {i : Nat} :
    i ∈ allIndicesOf key args ↔ args.get? i = some key := by
  unfold allIndicesOf
  simp only [List.mem_filter, List.mem_range, decide_eq_true_eq]
  constructor
  · exact fun h => h.2
  · intro h
    refine ⟨?_, h⟩
    by_contra h'
    push_neg at h'
    rw [List.get?_eq_none.mpr h'] at h
    exact Option.noConfusion h

lemma mem_occurrenceIndices {keys args : List String} {i : Nat} :
    i ∈ occurrenceIndices keys args ↔
      ∃ a, args.get? i = some a ∧ a ∈ keys := by
  unfold occurrenceIndices
  simp only [List.mem_filter, List.mem_range]
  constructor
  · rintro ⟨hi, h⟩
    cases hget : args.get? i with
    | none => rw [hget] at h; exact absurd h (by simp)
    | some a =>
      rw [hget] at h
      simp only [Option.any_some] at h
      exact ⟨a, rfl, by simpa using h⟩
  · rintro ⟨a, hget, hak⟩
    have hlen : i < args.length := by
      by_contra h'
      push_neg at h'
      rw [List.get?_eq_none.mpr h'] at hget
      exact Option.noConfusion hget
    refine ⟨hlen, ?_⟩
    rw [hget]
    simpa using hak

lemma isOption_eq_true_iff {keys args : List String} :
    isOption keys args = true ↔ ∃ k ∈ keys, k ∈ args := by
  unfold isOption
  simp

lemma occurrenceIndices_eq_nil_iff {keys args : List String} :
    occurrenceIndices keys args = [] ↔ isOption keys args = false := by
  constructor
  · intro h
    rw [Bool.eq_false_iff]
    intro hiso
    obtain ⟨k, hk, hka⟩ := isOption_eq_true_iff.mp hiso
    obtain ⟨n, hn⟩ := List.mem_iff_get?.mp hka
    have hocc : n ∈ occurrenceIndices keys args :=
      mem_occurrenceIndices.mpr ⟨k, hn, hk⟩
    rw [h] at hocc
    exact absurd hocc (List.not_mem_nil n)
  · intro h
    by_contra hne
    obtain ⟨i, hi⟩ := List.exists_mem_of_ne_nil _ hne
    obtain ⟨a, hga, hak⟩ := mem_occurrenceIndices.mp hi
    have : isOption keys args = true :=
      isOption_eq_true_iff.mpr ⟨a, hak, List.get?_mem hga⟩
    rw [h] at this
    exact Bool.noConfusion this

instance : Std.Antisymm ((· : Int) ≤ ·) :=
  ⟨fun h₁ h₂ => Int.le_antisymm h₁ h₂⟩

lemma int_max?_eq_some_iff {xs : List Int} {a : Int} :
    xs.max? = some a ↔ a ∈ xs ∧ ∀ b ∈ xs, b ≤ a :=
  List.max?_eq_some_iff (fun a => le_refl a) (fun a b => max_choice a b)
    (fun _ _ _ => max_le_iff)

lemma nthR_natCast (n : Nat) (l : List String) : nthR (n : Int) l = l.get? n := by
  unfold nthR
  have h0 : ¬ ((n : Int) < 0) := by omega
  simp only [h0, if_false, Int.toNat_natCast]

lemma lastIndexOf_of_max {key : String} {args : List String} {j : Nat}
    (h : (allIndicesOf key args).max? = some j) :
    lastIndexOf key args = (j : Int) := by
  unfold lastIndexOf
  rw [h]

lemma lastIndexOf_of_none {key : String} {args : List String}
    (h : (allIndicesOf key args).max? = none) :
    lastIndexOf key args = -1 := by
  unfold lastIndexOf
  rw [h]

/-- The central refinement fact: `parseOption` equals the token following
the maximum-index occurrence of any spelling, `undefined` when no spelling
occurs or when nothing follows that occurrence. -/
lemma parseOption_eq_spec (keys args : List String) :
    parseOption keys args =
      match (occurrenceIndices keys args).max? with
      | some p => args.get? (p + 1)
      | none => none := by
  cases hmax : (occurrenceIndices keys args).max? with
  | none =>
    have hnil := List.max?_eq_none_iff.mp hmax
    have hiso := occurrenceIndices_eq_nil_iff.mp hnil
    simp [parseOption, hiso]
  | some p =>
    obtain ⟨hpmem, hub⟩ := List.max?_eq_some_iff'.mp hmax
    obtain ⟨aP, hgetP, haP⟩ := mem_occurrenceIndices.mp hpmem
    have hiso : isOption keys args = true :=
      isOption_eq_true_iff.mpr ⟨aP, haP, List.get?_mem hgetP⟩
    have hlastP : lastIndexOf aP args = (p : Int) := by
      unfold lastIndexOf
      have hax : (allIndicesOf aP args).max? = some p := by
        rw [List.max?_eq_some_iff']
        refine ⟨mem_allIndicesOf.mpr hgetP, fun b hb => ?_⟩
        exact hub b (mem_occurrenceIndices.mpr ⟨aP, mem_allIndicesOf.mp hb, haP⟩)
      rw [hax]
    have hmapmax :
        (keys.map (fun k => lastIndexOf k args + 1)).max? = some ((p : Int) + 1) := by
      rw [int_max?_eq_some_iff]
      constructor
      · exact List.mem_map.mpr ⟨aP, haP, by rw [hlastP]⟩
      · intro x hx
        obtain ⟨k, hk, rfl⟩ := List.mem_map.mp hx
        cases hj : (allIndicesOf k args).max? with
        | none =>
          rw [lastIndexOf_of_none hj]
          omega
        | some j =>
          have hjmem := (List.max?_eq_some_iff'.mp hj).1
          have hjocc : j ∈ occurrenceIndices keys args :=
            mem_occurrenceIndices.mpr ⟨k, mem_allIndicesOf.mp hjmem, hk⟩
          have hjp := hub j hjocc
          rw [lastIndexOf_of_max hj]
          omega
    have hcast : ((p : Int) + 1) = ((p + 1 : Nat) : Int) := by push_cast; ring
    unfold parseOption
    rw [hiso, if_pos rfl, hmapmax]
    show nthR ((p : Int) + 1) args = args.get? (p + 1)
    rw [hcast, nthR_natCast]

/-- `parseOptionsMultiple` drops exactly the empty-string followers from
the per-spelling flattened follower list. -/
lemma parseOptionsMultiple_eq_filter (keys args : List String) :
    parseOptionsMultiple keys args =
      (resolveAllSpec keys args).filter (fun s => s ≠ "") := by
  unfold parseOptionsMultiple resolveAllSpec compact
  generalize (keys.map (fun k => allIndicesOf k args)).flatten = idxs
  induction idxs with
  | nil => simp
  | cons i tl ih =>
    simp only [List.map_cons, List.filterMap_cons]
    cases hg : args.get? (i + 1) with
    | none => simpa using ih
    | some s =>
      by_cases hs : s = ""
      · subst hs
        simpa using ih
      · simp only [if_neg hs, List.filter_cons, hs, decide_eq_true_eq]
        simpa [hs] using congrArg (s :: ·) ih

/-! ## Claims about the option resolver -/

/-- C1: among all occurrences of any spelling, `parseOption` returns the
token at position `p + 1` where `p` is the maximum occurrence index (the
last flag mention wins, even across spellings), and `undefined` when no
spelling occurs or when `p` is the last index; in particular
`[-d, a.json, --diagram, b.json]` resolves to `b.json` and `[-d]` to
`undefined`. -/
theorem parseOption_last_mention_wins :
    (∀ keys args : List String,
      parseOption keys args =
        match (occurrenceIndices keys args).max? with
        | some p => args.get? (p + 1)
        | none => none) ∧
    parseOption ["-d", "--diagram"] ["-d", "a.json", "--diagram", "b.json"]
      = some "b.json" ∧
    parseOption ["-d"] ["-d"] = none :=
  ⟨parseOption_eq_spec, by decide, by decide⟩

/-- C8 counterexample: in `[-d, a.json, -d]` the spelling `-d` has an
occurrence with a following token (index 0), yet `parseOption` is
`undefined`, because the *last* occurrence has no follower.  So "defined
iff at least one occurrence has a following token" fails on the code. -/
theorem parseOption_defined_iff_counterexample :
    hasFollowedOccurrence ["-d"] ["-d", "a.json", "-d"] = true ∧
    parseOption ["-d"] ["-d", "a.json", "-d"] = none := by
  constructor
  · decide
  · decide

/-- C8 amended: the resolved value is defined iff some spelling occurs and
the occurrence at the **maximum** index has a following token. -/
theorem parseOption_defined_iff_last_followed (keys args : List String) :
    (parseOption keys args).isSome = true ↔
      ∃ p, (occurrenceIndices keys args).max? = some p ∧
        p + 1 < args.length := by
  rw [parseOption_eq_spec]
  cases hmax : (occurrenceIndices keys args).max? with
  | none => simp
  | some p =>
    simp only [Option.some.injEq]
    constructor
    · intro h
      refine ⟨p, rfl, ?_⟩
      rcases Option.isSome_iff_exists.mp h with ⟨v, hv⟩
      by_contra hlen
      push_neg at hlen
      rw [List.get?_eq_none.mpr hlen] at hv
      exact Option.noConfusion hv
    · rintro ⟨q, rfl, hlt⟩
      rw [List.get?_eq_get hlt]
      rfl

/-- C7 counterexample: with interleaved spellings the code flattens
per-spelling (all `-s` followers, then all `--style` followers), not in
the order of the claim's example; moreover a follower that is the empty
string is removed by `_.compact`, while per the claim only occurrences
with *no* following token are dropped. -/
theorem parseOptionsMultiple_counterexample :
    parseOptionsMultiple ["-s", "--style"]
        ["-s", "st1.json", "--style", "st2.json", "-s", "st3.json"]
      = ["st1.json", "st3.json", "st2.json"] ∧
    parseOptionsMultiple ["-s", "--style"]
        ["-s", "st1.json", "--style", "st2.json", "-s", "st3.json"]
      ≠ ["st1.json", "st2.json", "st3.json"] ∧
    parseOptionsMultiple ["-s"] ["-s", ""] = [] ∧
    resolveAllSpec ["-s"] ["-s", ""] = [""] := by
  refine ⟨by decide, by decide, by decide, by decide⟩

/-- C7 amended: `parseOptionsMultiple` returns the flattened follower
sequence — spellings in the order given, each spelling's occurrences left
to right — with occurrences that have no following token dropped, and
additionally with empty-string followers dropped; on the example arguments
this yields `[st1.json, st3.json, st2.json]`. -/
theorem parseOptionsMultiple_flattened_order :
    (∀ keys args : List String,
      parseOptionsMultiple keys args =
        (resolveAllSpec keys args).filter (fun s => s ≠ "")) ∧
    parseOptionsMultiple ["-s", "--style"]
        ["-s", "st1.json", "--style", "st2.json", "-s", "st3.json"]
      = ["st1.json", "st3.json", "st2.json"] :=
  ⟨parseOptionsMultiple_eq_filter, by decide⟩

/-- C10: every string in the result of `parseOptionsMultiple` is
non-empty — an empty-string follower is compacted away exactly like a
missing one. -/
theorem parseOptionsMultiple_no_empty (keys args : List String) (s : String)
    (hs : s ∈ parseOptionsMultiple keys args) : s ≠ "" := by
  rw [parseOptionsMultiple_eq_filter] at hs
  have := (List.mem_filter.mp hs).2
  simpa using this

/-- Witness for C10 at a concrete invocation. -/
theorem parseOptionsMultiple_no_empty_witness :
    "st1.json" ∈ parseOptionsMultiple ["-s"] ["-s", "st1.json"] ∧
      "st1.json" ≠ "" :=
  ⟨by decide,
   parseOptionsMultiple_no_empty ["-s"] ["-s", "st1.json"] "st1.json" (by decide)⟩

/-! ## Helper lemmas about the deep merge -/

lemma findField_cons (k k' : String) (v : Json) (tl : List (String × Json)) :
    findField k ((k', v) :: tl) =
      if k' = k then some v else findField k tl := by
  unfold findField
  by_cases hk : k' = k
  · rw [List.find?_cons_of_pos _ (by simpa using hk), if_pos hk]
  · rw [List.find?_cons_of_neg _ (by simpa using hk), if_neg hk]

lemma findField_append (k : String) (l₁ l₂ : List (String × Json)) :
    findField k (l₁ ++ l₂) =
      match findField k l₁ with
      | some v => some v
      | none => findField k l₂ := by
  induction l₁ with
  | nil => rfl
  | cons hd tl ih =>
    obtain ⟨k', v⟩ := hd
    rw [List.cons_append, findField_cons, findField_cons]
    by_cases hk : k' = k
    · rw [if_pos hk, if_pos hk]
    · rw [if_neg hk, if_neg hk, ih]

lemma findField_mergeOwn (k : String) (lf rf : List (String × Json)) :
    findField k (mergeOwn lf rf) =
      (findField k lf).map
        (fun v =>
          match findField k rf with
          | some w => mergeVal v w
          | none => v) := by
  induction lf with
  | nil => rfl
  | cons hd tl ih =>
    obtain ⟨k', v⟩ := hd
    rw [mergeOwn, findField_cons, findField_cons]
    by_cases hk : k' = k
    · subst hk
      rw [if_pos rfl, if_pos rfl]
      rfl
    · rw [if_neg hk, if_neg hk, ih]

lemma findField_filter_notin (k : String) (lf rf : List (String × Json)) :
    findField k (rf.filter (fun q => (findField q.1 lf).isNone)) =
      match findField k lf with
      | some _ => none
      | none => findField k rf := by
  induction rf with
  | nil => cases findField k lf <;> rfl
  | cons hd tl ih =>
    obtain ⟨k'', w⟩ := hd
    by_cases hk : k'' = k
    · subst hk
      cases hlf : findField k'' lf with
      | none => simp [List.filter_cons, hlf, findField_cons, ih]
      | some v => simp [List.filter_cons, hlf, findField_cons, ih]
    · cases hpred : (findField k'' lf).isNone with
      | true => simp [List.filter_cons, hpred, findField_cons, hk, ih]
      | false => simp [List.filter_cons, hpred, findField_cons, hk, ih]

lemma mergeVal_eq (v w : Json) :
    mergeVal v w =
      match v, w with
      | .obj a, .obj b => .obj (mergeDeepLeft a b)
      | _, _ => v := by
  cases v <;> cases w <;> rfl

lemma findField_mergeDeepLeft (k : String) (lf rf : Doc) :
    findField k (mergeDeepLeft lf rf) =
      match findField k lf with
      | some v =>
          some (match findField k rf with
                | some w => mergeVal v w
                | none => v)
      | none => findField k rf := by
  unfold mergeDeepLeft
  rw [findField_append, findField_mergeOwn, findField_filter_notin]
  cases findField k lf <;> rfl

/-! ## Claim about the deep merge -/

/-- C2: deep-merging two documents with the first one winning: the merged
document holds the union of the keys; for a key held by both, two mapping
values merge recursively while any other collision keeps the first
document's value wholesale; the worked example merges as claimed. -/
theorem mergeDeepLeft_left_priority_deep :
    (∀ (lf rf : Doc) (k : String),
      findField k (mergeDeepLeft lf rf) =
        match findField k lf, findField k rf with
        | some (Json.obj a), some (Json.obj b) =>
            some (Json.obj (mergeDeepLeft a b))
        | some v, some _ => some v
        | some v, none => some v
        | none, w => w) ∧
    mergeDeepLeft
        [("a", Json.str "1"), ("c", Json.obj [("x", Json.str "d1")])]
        [("b", Json.str "2"), ("c", Json.obj [("y", Json.str "d2")])]
      = [("a", Json.str "1"),
         ("c", Json.obj [("x", Json.str "d1"), ("y", Json.str "d2")]),
         ("b", Json.str "2")] := by
  constructor
  · intro lf rf k
    rw [findField_mergeDeepLeft]
    cases hl : findField k lf with
    | none => cases hr : findField k rf <;> rfl
    | some v =>
      cases hr : findField k rf with
      | none => cases v <;> rfl
      | some w => cases v <;> cases w <;> simp [mergeVal_eq]
  · rfl

/-! ## Helper lemmas about the loader and the merge fold -/

lemma parseObjectsStep_fail (fs : FS) (st : Option Doc × List String)
    (p : String) (h : isDoc (fs p) = false) :
    parseObjectsStep fs st p = (st.1, st.2 ++ [diagMsg p]) := by
  unfold parseObjectsStep
  unfold isDoc at h
  cases hfp : fs p
  · rfl
  · rfl
  · rw [hfp] at h
    exact Bool.noConfusion h

lemma parseObjectsStep_doc (fs : FS) (st : Option Doc × List String)
    (p : String) (d : Doc) (h : fs p = FileData.wellformed d) :
    parseObjectsStep fs st p =
      (some (match st.1 with
             | some a => mergeDeepLeft a d
             | none => d),
       st.2) := by
  unfold parseObjectsStep
  rw [h]

lemma foldl_parseObjectsStep_fst_none (fs : FS) (ps : List String) :
    ∀ st : Option Doc × List String,
      (ps.foldl (parseObjectsStep fs) st).1 = none ↔
        st.1 = none ∧ ∀ p ∈ ps, isDoc (fs p) = false := by
  induction ps with
  | nil => intro st; simp
  | cons p tl ih =>
    intro st
    rw [List.foldl_cons, ih]
    cases hfp : fs p with
    | wellformed d =>
      rw [parseObjectsStep_doc fs st p d hfp]
      simp [isDoc, hfp]
    | missing =>
      rw [parseObjectsStep_fail fs st p (by simp [isDoc, hfp])]
      simp [isDoc, hfp, and_assoc]
    | malformed =>
      rw [parseObjectsStep_fail fs st p (by simp [isDoc, hfp])]
      simp [isDoc, hfp, and_assoc]

lemma foldl_parseObjectsStep_diags (fs : FS) (ps : List String) :
    ∀ st : Option Doc × List String,
      (ps.foldl (parseObjectsStep fs) st).2 =
        st.2 ++ (ps.filter (fun p => !(isDoc (fs p)))).map diagMsg := by
  induction ps with
  | nil => intro st; simp
  | cons p tl ih =>
    intro st
    rw [List.foldl_cons, ih, List.filter_cons]
    cases hfp : fs p with
    | wellformed d =>
      rw [parseObjectsStep_doc fs st p d hfp]
      simp [isDoc, hfp]
    | missing =>
      rw [parseObjectsStep_fail fs st p (by simp [isDoc, hfp])]
      simp [isDoc, hfp]
    | malformed =>
      rw [parseObjectsStep_fail fs st p (by simp [isDoc, hfp])]
      simp [isDoc, hfp]

lemma parseObjects_fst_none_iff (fs : FS) (ps : List String) :
    (parseObjects fs ps).1 = none ↔ ∀ p ∈ ps, isDoc (fs p) = false := by
  unfold parseObjects
  cases hps : ps.isEmpty with
  | true =>
    rw [List.isEmpty_iff] at hps
    subst hps
    simp
  | false =>
    rw [if_neg (by simp)]
    rw [foldl_parseObjectsStep_fst_none]
    simp

lemma parseObjects_diags (fs : FS) (ps : List String) :
    (parseObjects fs ps).2 =
      (ps.filter (fun p => !(isDoc (fs p)))).map diagMsg := by
  unfold parseObjects
  cases hps : ps.isEmpty with
  | true =>
    rw [List.isEmpty_iff] at hps
    subst hps
    rfl
  | false =>
    rw [if_neg (by simp)]
    rw [foldl_parseObjectsStep_diags]
    rfl

lemma getDefaultObjects_fst_none_iff (fs : FS) (dvs : List String) :
    (getDefaultObjects fs dvs).1 = none ↔
      ∀ p ∈ dvs, isDoc (fs p) = false := by
  unfold getDefaultObjects
  rw [parseObjects_fst_none_iff]
  constructor
  · intro h p hp
    by_cases he : existsSync fs p = true
    · exact h p (List.mem_filter.mpr ⟨hp, he⟩)
    · unfold existsSync at he
      unfold isDoc
      cases hfp : fs p
      · rfl
      · rfl
      · rw [hfp] at he
        exact absurd rfl he
  · intro h p hp
    exact h p (List.mem_filter.mp hp).1

/-! ## Claims about the loader, the fold and the assembler -/

/-- C3: `parseObjects` on an empty path list is `undefined`; each failing
path logs a diagnostic and leaves the fold accumulator untouched; with a
malformed first file and a wellformed second the result is the second
document (with the diagnostic emitted); when every path fails the result
is `undefined`. -/
theorem parseObjects_fold_tolerant :
    (∀ fs : FS, parseObjects fs [] = (none, [])) ∧
    (∀ (fs : FS) (st : Option Doc × List String) (p : String),
      isDoc (fs p) = false →
      parseObjectsStep fs st p = (st.1, st.2 ++ [diagMsg p])) ∧
    (∀ (fs : FS) (p₁ p₂ : String) (d : Doc),
      fs p₁ = FileData.malformed → fs p₂ = FileData.wellformed d →
      (parseObjects fs [p₁, p₂]).1 = some d ∧
        diagMsg p₁ ∈ (parseObjects fs [p₁, p₂]).2) ∧
    (∀ (fs : FS) (ps : List String),
      (∀ p ∈ ps, isDoc (fs p) = false) →
      (parseObjects fs ps).1 = none) := by
  refine ⟨fun fs => rfl, parseObjectsStep_fail, ?_, ?_⟩
  · intro fs p₁ p₂ d h₁ h₂
    have hstep₁ :
        parseObjectsStep fs (none, []) p₁ = (none, [diagMsg p₁]) := by
      rw [parseObjectsStep_fail fs (none, []) p₁ (by simp [isDoc, h₁])]
      rfl
    constructor
    · show (parseObjects fs [p₁, p₂]).1 = some d
      unfold parseObjects
      rw [if_neg (by exact Bool.noConfusion)]
      rw [List.foldl_cons, List.foldl_cons, List.foldl_nil, hstep₁,
        parseObjectsStep_doc fs (none, [diagMsg p₁]) p₂ d h₂]
    · unfold parseObjects
      rw [if_neg (by exact Bool.noConfusion)]
      rw [List.foldl_cons, List.foldl_cons, List.foldl_nil, hstep₁,
        parseObjectsStep_doc fs (none, [diagMsg p₁]) p₂ d h₂]
      exact List.mem_singleton.mpr rfl
  · intro fs ps h
    exact (parseObjects_fst_none_iff fs ps).mpr h

/-- Witness for C3: a file system holding a malformed `a.json` and a
wellformed `b.json`. -/
theorem parseObjects_fold_tolerant_witness :
    (parseObjects
      (fun p =>
        if p = "a.json" then FileData.malformed
        else if p = "b.json" then FileData.wellformed [("b", Json.str "2")]
        else FileData.missing)
      ["a.json", "b.json"]).1 = some [("b", Json.str "2")] ∧
    diagMsg "a.json" ∈
      (parseObjects
        (fun p =>
          if p = "a.json" then FileData.malformed
          else if p = "b.json" then FileData.wellformed [("b", Json.str "2")]
          else FileData.missing)
        ["a.json", "b.json"]).2 ∧
    (parseObjects
      (fun p =>
        if p = "a.json" then FileData.malformed
        else if p = "b.json" then FileData.wellformed [("b", Json.str "2")]
        else FileData.missing)
      ["c.json", "d.json"]).1 = none := by
  refine ⟨?_, ?_, ?_⟩
  · exact (parseObjects_fold_tolerant.2.2.1 _ "a.json" "b.json"
      [("b", Json.str "2")] rfl rfl).1
  · exact (parseObjects_fold_tolerant.2.2.1 _ "a.json" "b.json"
      [("b", Json.str "2")] rfl rfl).2
  · exact parseObjects_fold_tolerant.2.2.2 _ ["c.json", "d.json"]
      (by intro p hp; fin_cases hp <;> rfl)

/-- C4 counterexample: `parseObject` on a missing file *does* emit a
diagnostic — `fs.readFileSync` throws `ENOENT` and the `R.tryCatch`
handler logs it just like a parse failure — and so does the merge fold. -/
theorem parseObject_missing_counterexample :
    (parseObject (fun _ => FileData.missing) "x.json").1 = none ∧
    (parseObject (fun _ => FileData.missing) "x.json").2 = [diagMsg "x.json"] ∧
    (parseObject (fun _ => FileData.missing) "x.json").2 ≠ [] ∧
    (parseObjects (fun _ => FileData.missing) ["x.json"]).2 ≠ [] := by
  refine ⟨rfl, rfl, by decide, by decide⟩

/-- C4 amended: `parseObject` on a missing file returns `undefined` but
emits the caught-error diagnostic (missing files are only silent for the
default-file helpers, which check existence first); a missing file in the
merge fold likewise logs its diagnostic. -/
theorem parseObject_missing_diagnosed (fs : FS) (p : String)
    (h : fs p = FileData.missing) :
    (parseObject fs p).1 = none ∧
    (parseObject fs p).2 = [diagMsg p] ∧
    getDefaultObject fs p = (none, []) ∧
    ∀ ps : List String, p ∈ ps → diagMsg p ∈ (parseObjects fs ps).2 := by
  refine ⟨?_, ?_, ?_, ?_⟩
  · unfold parseObject
    rw [h]
  · unfold parseObject
    rw [h]
  · unfold getDefaultObject existsSync
    rw [h]
    rfl
  · intro ps hps
    rw [parseObjects_diags]
    exact List.mem_map.mpr
      ⟨p, List.mem_filter.mpr ⟨hps, by simp [isDoc, h]⟩, rfl⟩

/-- Witness for C4 (amended): a wholly missing file system. -/
theorem parseObject_missing_diagnosed_witness :
    (parseObject (fun _ => FileData.missing) "nope.json").1 = none ∧
    diagMsg "nope.json" ∈
      (parseObjects (fun _ => FileData.missing) ["nope.json"]).2 := by
  refine ⟨?_, ?_⟩
  · exact (parseObject_missing_diagnosed (fun _ => FileData.missing)
      "nope.json" rfl).1
  · exact (parseObject_missing_diagnosed (fun _ => FileData.missing)
      "nope.json" rfl).2.2.2 ["nope.json"] (List.mem_singleton.mpr rfl)

/-- C5: the single-value-with-default slot.  With an explicit path whose
load succeeds, that document is the result; with an explicit path whose
load fails, the default file's load is the result; with no explicit path
the default file's load is the result directly; and the default loader
checks existence first, returning `undefined` with no diagnostic for a
missing default file. -/
theorem getObjectOverDefault_fallback :
    (∀ (fs : FS) (dv : String) (keys args : List String) (p : String) (d : Doc),
      parseOption keys args = some p →
      (parseObject fs p).1 = some d →
      (getObjectOverDefault fs dv keys args).1 = some d) ∧
    (∀ (fs : FS) (dv : String) (keys args : List String) (p : String),
      parseOption keys args = some p →
      (parseObject fs p).1 = none →
      (getObjectOverDefault fs dv keys args).1 = (getDefaultObject fs dv).1) ∧
    (∀ (fs : FS) (dv : String) (keys args : List String),
      parseOption keys args = none →
      getObjectOverDefault fs dv keys args = getDefaultObject fs dv) ∧
    (∀ (fs : FS) (dv : String),
      fs dv = FileData.missing → getDefaultObject fs dv = (none, [])) := by
  refine ⟨?_, ?_, ?_, ?_⟩
  · intro fs dv keys args p d h₁ h₂
    unfold getObjectOverDefault
    rw [h₁]
    rcases hpo : parseObject fs p with ⟨o, logs⟩
    rw [hpo] at h₂
    simp only at h₂
    subst h₂
    simp [hpo]
  · intro fs dv keys args p h₁ h₂
    unfold getObjectOverDefault
    rw [h₁]
    rcases hpo : parseObject fs p with ⟨o, logs⟩
    rw [hpo] at h₂
    simp only at h₂
    subst h₂
    simp [hpo]
  · intro fs dv keys args h₁
    unfold getObjectOverDefault
    rw [h₁]
  · intro fs dv h
    unfold getDefaultObject existsSync
    rw [h]
    rfl

/-- Witness for C5: the three branches at concrete inputs over a file
system holding only a wellformed `x.json`. -/
theorem getObjectOverDefault_fallback_witness :
    (getObjectOverDefault
        (fun p => if p = "x.json"
          then FileData.wellformed [("a", Json.str "1")]
          else FileData.missing)
        "style.json" ["-c", "--config"] ["-c", "x.json"]).1
      = some [("a", Json.str "1")] ∧
    (getObjectOverDefault
        (fun p => if p = "x.json"
          then FileData.wellformed [("a", Json.str "1")]
          else FileData.missing)
        "style.json" ["-c", "--config"] ["-c", "y.json"]).1
      = (getDefaultObject
          (fun p => if p = "x.json"
            then FileData.wellformed [("a", Json.str "1")]
            else FileData.missing) "style.json").1 ∧
    getObjectOverDefault
        (fun p => if p = "x.json"
          then FileData.wellformed [("a", Json.str "1")]
          else FileData.missing)
        "style.json" ["-c", "--config"] ["-z"]
      = getDefaultObject
          (fun p => if p = "x.json"
            then FileData.wellformed [("a", Json.str "1")]
            else FileData.missing) "style.json" ∧
    getDefaultObject
        (fun p => if p = "x.json"
          then FileData.wellformed [("a", Json.str "1")]
          else FileData.missing) "style.json"
      = (none, []) := by
  refine ⟨?_, ?_, ?_, ?_⟩
  · exact getObjectOverDefault_fallback.1 _ "style.json" ["-c", "--config"]
      ["-c", "x.json"] "x.json" [("a", Json.str "1")] (by decide) rfl
  · exact getObjectOverDefault_fallback.2.1 _ "style.json" ["-c", "--config"]
      ["-c", "y.json"] "y.json" (by decide) rfl
  · exact getObjectOverDefault_fallback.2.2.1 _ "style.json"
      ["-c", "--config"] ["-z"] (by decide)
  · exact getObjectOverDefault_fallback.2.2.2 _ "style.json" rfl

/-- C6: the multi-value style slot.  The result is the explicit files'
merge `A` deep-merged over the defaults' merge `B` when `A` is defined
(with `A` winning), else `B`; and it is absent exactly when every
contributing document — every explicitly listed style file and every
default style file — fails to load. -/
theorem getObjects_merge_over_defaults (fs : FS)
    (dvs keys args : List String) :
    ((getObjects fs dvs keys args).1 =
      match (parseObjects fs (parseOptionsMultiple keys args)).1 with
      | some pa =>
          some (match (getDefaultObjects fs dvs).1 with
                | some pb => mergeDeepLeft pa pb
                | none => pa)
      | none => (getDefaultObjects fs dvs).1) ∧
    ((getObjects fs dvs keys args).1 = none ↔
      (∀ p ∈ parseOptionsMultiple keys args, isDoc (fs p) = false) ∧
      ∀ p ∈ dvs, isDoc (fs p) = false) := by
  have hmain :
      (getObjects fs dvs keys args).1 =
        match (parseObjects fs (parseOptionsMultiple keys args)).1 with
        | some pa =>
            some (match (getDefaultObjects fs dvs).1 with
                  | some pb => mergeDeepLeft pa pb
                  | none => pa)
        | none => (getDefaultObjects fs dvs).1 := by
    unfold getObjects
    rcases hA : parseObjects fs (parseOptionsMultiple keys args) with ⟨oA, lA⟩
    rcases hB : getDefaultObjects fs dvs with ⟨oB, lB⟩
    cases oA with
    | some pa => cases oB <;> rfl
    | none => rfl
  refine ⟨hmain, ?_⟩
  rw [hmain]
  cases hA : (parseObjects fs (parseOptionsMultiple keys args)).1 with
  | some pa =>
    constructor
    · intro h
      exact Option.noConfusion h
    · rintro ⟨hexp, -⟩
      have hnone :=
        (parseObjects_fst_none_iff fs (parseOptionsMultiple keys args)).mpr hexp
      rw [hA] at hnone
      exact Option.noConfusion hnone
  | none =>
    rw [parseObjects_fst_none_iff] at hA
    rw [getDefaultObjects_fst_none_iff]
    simp [hA]
    exact fun _ => hA

/-- C9 counterexample: with `-o` and `-w` both present and the file write
failing, the write failure is logged but the SVG is *not* printed to the
console — `R.cond` runs only the first matching branch, so the `-w`
branch never fires when `-o` is present. -/
theorem afterGenerate_both_flags_counterexample :
    isOption ["-o", "--output"] ["-d", "d.json", "-o", "out.svg", "-w"]
      = true ∧
    isOption ["-w", "--write"] ["-d", "d.json", "-o", "out.svg", "-w"]
      = true ∧
    (afterGenerate ["-d", "d.json", "-o", "out.svg", "-w"] "SVG" false).printed
      = none ∧
    (afterGenerate ["-d", "d.json", "-o", "out.svg", "-w"] "SVG" false).diags
      ≠ [] := by
  refine ⟨by decide, by decide, by decide, by decide⟩

/-- C9 amended: a failed write is diagnosed and never alters what would be
printed (the in-memory SVG is untouched); but the post-generate dispatch
applies only its first matching branch, so the console printing happens
exactly when `-o` is absent and `-w` present — with `-o` present nothing
is printed, write failure or not. -/
theorem afterGenerate_write_failure_isolated :
    (∀ (args : List String) (svg : String),
      isOption ["-o", "--output"] args = true →
      afterGenerate args svg false =
        { written := none, printed := none,
          diags := ["Error: write failed. Diagram was not generated."] }) ∧
    (∀ (args : List String) (svg : String) (ok₁ ok₂ : Bool),
      (afterGenerate args svg ok₁).printed =
        (afterGenerate args svg ok₂).printed) ∧
    (∀ (args : List String) (svg : String) (ok : Bool),
      isOption ["-o", "--output"] args = false →
      isOption ["-w", "--write"] args = true →
      (afterGenerate args svg ok).printed = some svg) ∧
    (∀ (args : List String) (svg : String) (ok : Bool),
      isOption ["-o", "--output"] args = true →
      (afterGenerate args svg ok).printed = none) := by
  refine ⟨?_, ?_, ?_, ?_⟩
  · intro args svg h
    unfold afterGenerate
    rw [h, if_pos rfl]
    rfl
  · intro args svg ok₁ ok₂
    unfold afterGenerate outputCmd
    cases isOption ["-o", "--output"] args <;>
      cases isOption ["-w", "--write"] args <;>
      cases ok₁ <;> cases ok₂ <;> rfl
  · intro args svg ok ho hw
    unfold afterGenerate
    rw [ho, hw]
    rfl
  · intro args svg ok h
    unfold afterGenerate outputCmd
    rw [h, if_pos rfl]
    cases ok <;> rfl

/-- Witness for C9 (amended) at concrete argument vectors. -/
theorem afterGenerate_write_failure_isolated_witness :
    afterGenerate ["-d", "d.json", "-o", "out.svg"] "SVG" false =
      { written := none, printed := none,
        diags := ["Error: write failed. Diagram was not generated."] } ∧
    (afterGenerate ["-d", "d.json", "-w"] "SVG" true).printed = some "SVG" ∧
    (afterGenerate ["-d", "d.json", "-o", "out.svg", "-w"] "SVG" true).printed
      = none := by
  refine ⟨?_, ?_, ?_⟩
  · exact afterGenerate_write_failure_isolated.1
      ["-d", "d.json", "-o", "out.svg"] "SVG" (by decide)
  · exact afterGenerate_write_failure_isolated.2.2.1
      ["-d", "d.json", "-w"] "SVG" true (by decide) (by decide)
  · exact afterGenerate_write_failure_isolated.2.2.2
      ["-d", "d.json", "-o", "out.svg", "-w"] "SVG" true (by decide)

end Rho
